import Mathlib

/-!
Verification of the lipreading model architecture in
`src/models/lipreading/lipreading_model.py`.

Tensors are shallowly embedded as nested lists of rationals (torch float
tensors, with exact arithmetic standing in for floating point where only
the algebra of the operations matters).  The two external collaborators —
the ShuffleNetV2 spatial trunk and the TemporalConvNet /
MultibranchTemporalConvNet cascades from `.tcn` (not part of the sources
under verification) — are modelled as opaque function parameters, exactly
as the spec treats them (opaque sequence-to-sequence transforms).
Fallible tensor indexing (Python exceptions) is modelled with `Option`.
-/

set_option maxHeartbeats 1000000
set_option maxRecDepth 4000

/-- A 1-dimensional tensor. -/
abbrev Ten1 : Type := List ℚ

/-- A 2-dimensional tensor. -/
abbrev Ten2 : Type := List (List ℚ)

/-- A 3-dimensional tensor. -/
abbrev Ten3 : Type := List (List (List ℚ))

/-- A 4-dimensional tensor. -/
abbrev Ten4 : Type := List (List (List (List ℚ)))

/-- A 5-dimensional tensor. -/
abbrev Ten5 : Type := List (List (List (List (List ℚ))))

/-- Shape predicate for a rectangular 2-dimensional list: `R` rows, `C` columns. -/
abbrev shapeMat {α : Type} (m : List (List α)) (R C : ℕ) : Prop :=
  m.length = R ∧ ∀ r ∈ m, r.length = C

/-- Shape predicate for a 3-dimensional tensor of shape `[B, C, T]`. -/
abbrev shape3 (x : Ten3) (B C T : ℕ) : Prop :=
  x.length = B ∧ ∀ mm ∈ x, shapeMat mm C T

/-- Shape predicate for a 4-dimensional tensor of shape `[B, C, D, T]`. -/
abbrev shape4 (x : Ten4) (B C D T : ℕ) : Prop :=
  x.length = B ∧ ∀ c ∈ x, c.length = C ∧ ∀ p ∈ c, shapeMat p D T

/-- `torch.mean` over a 1-dimensional slice: sum divided by length. -/
def torchMean (l : Ten1) : ℚ := l.sum / l.length

/-- The time-index ramp `t := 0, 1, ..., T-1` used by the spec's aggregator
    test (`x[i,:,t] = t`). -/
def rampRow (T : ℕ) : Ten1 := (List.range T).map (fun t : ℕ => (t : ℚ))

/-- The list comprehension inside `_average_batch`
    (`[torch.mean(x[index][:, 0:i], 1) for index, i in enumerate(lengths)]`):
    iterate over `lengths` with a running index starting at `idx`,
    take the first `i` time-columns of each row of `x[index]` and average them.
    An out-of-range index (Python `IndexError`) yields `none`. -/
def averageBatchAux (x : Ten3) : ℕ → List ℕ → Option Ten2
  | _, [] => some []
  | idx, L :: rest =>
    match x[idx]? with
    | none => none
    | some xi =>
        (averageBatchAux x (idx + 1) rest).map
          (fun r => (xi.map (fun row => torchMean (row.take L))) :: r)

/-- `_average_batch(x, lengths, B)` from the source: stacks, for each
    `(index, i)` in `enumerate(lengths)`, the per-channel mean of
    `x[index][:, 0:i]`.  The argument `B` appears in the signature but is
    not used by the body, exactly as in the source. -/
def average_batch (x : Ten3) (lengths : List ℕ) (B : ℕ) : Option Ten2 :=
  averageBatchAux x 0 lengths

/-- `torch.Tensor.transpose(0, 1)` on a 2-dimensional tensor regarded as a
    list of rows: the result has one row per column of the input, and entry
    `(j, i)` of the result is entry `(i, j)` of the input. -/
def transposeG {α : Type} (d : α) (m : List (List α)) : List (List α) :=
  (List.range (m.headD []).length).map (fun j =>
    (List.range m.length).map (fun i => (m.getD i []).getD j d))

/-- `x.transpose(1, 2)` on a 3-dimensional tensor `[B, T, D] -> [B, D, T]`. -/
def transpose12 (x : Ten3) : Ten3 := x.map (fun xb => transposeG 0 xb)

/-- `x.unsqueeze(-2)` on a 3-dimensional tensor: insert a singleton axis in
    the penultimate position, `[B, C, T] -> [B, C, 1, T]`. -/
def unsqueezePenult (x : Ten3) : Ten4 := x.map (fun mm => mm.map (fun r => [r]))

/-- The dynamic return value of the temporal-backbone `forward` methods:
    either a single 4-dimensional tensor, or a pair of the per-timestep
    feature tensor and the aggregated `[B, C]` tensor. -/
inductive LROutput where
  | single (t : Ten4)
  | pair (t : Ten4) (v : Ten2)
deriving DecidableEq

/-- Parameters of an `nn.Linear` layer (the classification head). -/
structure Linear where
  weight : Ten2
  bias : Ten1
deriving DecidableEq

/-- The `TCN` module of the source.  `tcn_trunk` is the opaque
    `TemporalConvNet` cascade (external collaborator); `tcn_output` is the
    final linear classification layer, constructed but never invoked. -/
structure TCNmod where
  tcn_trunk : Ten3 → Ten3
  tcn_output : Linear

/-- `TCN.forward(x, lengths, B, extract_feats)` from the source.
    With `extract_feats` set: run the cascade on `x.transpose(1, 2)`,
    aggregate with `_average_batch`, and return the pair
    `(x.unsqueeze(-2), out)`.  Otherwise return `x.unsqueeze(-2)` on the
    untransposed input. -/
def TCN_forward (m : TCNmod) (x : Ten3) (lengths : List ℕ) (B : ℕ)
    (extract_feats : Bool) : Option LROutput :=
  if extract_feats then
    let xt := m.tcn_trunk (transpose12 x)
    (average_batch xt lengths B).map (fun out => LROutput.pair (unsqueezePenult xt) out)
  else
    some (LROutput.single (unsqueezePenult x))

/-- The `MultiscaleMultibranchTCN` module of the source.  `mb_ms_tcn` is
    the opaque `MultibranchTemporalConvNet` (external collaborator);
    `tcn_output` is the final linear layer, constructed but never invoked. -/
structure MSTCNmod where
  mb_ms_tcn : Ten3 → Ten3
  tcn_output : Linear

/-- `MultiscaleMultibranchTCN.forward(x, lengths, B, extract_feats)` from
    the source: transpose to `[B, C, T]`; with `extract_feats` set, return
    the branch output with `unsqueeze(-2)`; otherwise return the transposed
    input with `unsqueeze(-2)`.  The consensus / classification lines are
    commented out in the source and therefore absent here. -/
def MultiscaleMultibranchTCN_forward (m : MSTCNmod) (x : Ten3) (lengths : List ℕ)
    (B : ℕ) (extract_feats : Bool) : Option LROutput :=
  let xtrans := transpose12 x
  if extract_feats then
    some (LROutput.single (unsqueezePenult (m.mb_ms_tcn xtrans)))
  else
    some (LROutput.single (unsqueezePenult xtrans))

/-- Whether a backbone forward result is the two-tensor (features, aggregated)
    form. -/
def isPairOut : Option LROutput → Bool
  | some (LROutput.pair _ _) => true
  | _ => false

/-- The temporal backbone stored in `Lipreading.tcn`: one of the two module
    classes selected in `Lipreading.__init__`. -/
inductive Backbone where
  | single (m : TCNmod)
  | multi (m : MSTCNmod)

/-- Dispatch `self.tcn(x, lengths, B, extract_feats)` to the stored module. -/
def Backbone_forward : Backbone → Ten3 → List ℕ → ℕ → Bool → Option LROutput
  | Backbone.single m, x, lengths, B, ef => TCN_forward m x lengths B ef
  | Backbone.multi m, x, lengths, B, ef => MultiscaleMultibranchTCN_forward m x lengths B ef

/-- `threeD_to_2D_tensor` from the source: `x.transpose(1, 2)` on a
    `[B, C, T, H, W]` tensor followed by `reshape(B*T, C, H, W)`; in the
    list embedding, transpose the channel/time axes per example and merge
    the batch and time axes by concatenation. -/
def threeD_to_2D_tensor (x : Ten5) : Ten4 :=
  (x.map (fun xb => transposeG ([] : Ten2) xb)).flatten

/-- Split a `[B*T, ...]` batch back into a `[B, T, ...]` layout: chunk `b`
    holds elements `b*T .. b*T+T-1`, the inverse of the batch-time merge. -/
def unflattenBT {α : Type} (B T : ℕ) (y : List α) : List (List α) :=
  (List.range B).map (fun b => (y.drop (b * T)).take T)

/-- The `lengths` argument of `Lipreading.forward`, which the source accepts
    either as a single Python `int` or as a per-example list. -/
inductive LengthsArg where
  | int (n : ℕ)
  | vec (l : List ℕ)

/-- The `Lipreading` module of the source.  `frontend3D` (Conv3d + BatchNorm3d
    + activation + MaxPool3d) and `trunk` (ShuffleNetV2 features) are learned
    torch submodules, modelled as opaque tensor functions. -/
structure LipreadingMod where
  extract_feats : Bool
  backbone_type : String
  frontend3D : Ten5 → Ten5
  trunk : Ten4 → Ten4
  stage_out_channels : ℕ
  tcn : Backbone

/-- Row-major flattening of a 4-dimensional tensor into its element list
    (the underlying storage order used by `view`). -/
def flatten4 (w : Ten4) : Ten1 := (w.map (fun im => im.flatten.flatten)).flatten

/-- `view(B, T, F)`: reinterpret a row-major element list as a `[B, T, F]`
    tensor. -/
def view3 (B T F : ℕ) (l : Ten1) : Ten3 :=
  (List.range B).map (fun b =>
    (List.range T).map (fun t => (l.drop ((b * T + t) * F)).take F))

/-- `x.shape[2]` of a 5-dimensional tensor (the time axis). -/
def dim2of5 (y : Ten5) : ℕ := ((y.headD []).headD []).length

/-- `x.size(1)` of a 4-dimensional tensor (the channel axis). -/
def dim1of4 (w : Ten4) : ℕ := (w.headD []).length

/-- `Lipreading.forward(x, lengths)` from the source: broadcast an integer
    `lengths` to a per-example list, run `frontend3D`, flatten frames with
    `threeD_to_2D_tensor`, run the trunk, reshape (`view(-1, stage_out_channels)`
    for the shufflenet backbone, then `view(B, Tnew, x.size(1))` — two
    row-major reshapes of the same storage, combined here into one `view3`),
    and dispatch to `self.tcn` with `self.extract_feats`. -/
def Lipreading_forward (m : LipreadingMod) (x : Ten5) (lengths : LengthsArg) :
    Option LROutput :=
  let B := x.length
  let lens := match lengths with
    | LengthsArg.int n => List.replicate B n
    | LengthsArg.vec l => l
  let y := m.frontend3D x
  let Tnew := dim2of5 y
  let z := threeD_to_2D_tensor y
  let w := m.trunk z
  let s1 := if m.backbone_type = "shufflenet" then m.stage_out_channels else dim1of4 w
  let seq := view3 B Tnew s1 (flatten4 w)
  Backbone_forward m.tcn seq lens B m.extract_feats

/-- Replace the `tcn_output` linear layer of a backbone module. -/
def setBackboneHead : Backbone → Linear → Backbone
  | Backbone.single m, h => Backbone.single { m with tcn_output := h }
  | Backbone.multi m, h => Backbone.multi { m with tcn_output := h }

/-- Replace the `tcn_output` linear layer inside a `Lipreading` network,
    leaving every other parameter unchanged. -/
def setHead (m : LipreadingMod) (h : Linear) : LipreadingMod :=
  { m with tcn := setBackboneHead m.tcn h }

/-- The five extents of a torch 5-dimensional tensor. -/
structure TensorShape5 where
  batch : ℕ
  channels : ℕ
  time : ℕ
  height : ℕ
  width : ℕ
deriving DecidableEq

/-- Output length of a 1-dimensional convolution / pooling window:
    `floor((n + 2p - k) / s) + 1` (torch's shape rule). -/
def convOutLen (n k s p : ℕ) : ℕ := (n + 2 * p - k) / s + 1

/-- Shape of `nn.Conv3d` output given out-channels, kernel, stride and
    padding, each as (time, height, width) components. -/
def conv3dOutShape (outChannels kt kh kw st sh sw pt ph pw : ℕ)
    (s : TensorShape5) : TensorShape5 :=
  ⟨s.batch, outChannels, convOutLen s.time kt st pt,
    convOutLen s.height kh sh ph, convOutLen s.width kw sw pw⟩

/-- Shape of `nn.MaxPool3d` output (channel-preserving). -/
def maxPool3dOutShape (kt kh kw st sh sw pt ph pw : ℕ)
    (s : TensorShape5) : TensorShape5 :=
  ⟨s.batch, s.channels, convOutLen s.time kt st pt,
    convOutLen s.height kh sh ph, convOutLen s.width kw sw pw⟩

/-- `nn.BatchNorm3d` preserves shape. -/
def batchNorm3dOutShape (s : TensorShape5) : TensorShape5 := s

/-- The activation (PReLU or ReLU) preserves shape. -/
def reluOutShape (s : TensorShape5) : TensorShape5 := s

/-- `self.frontend_nout = 24` from the source. -/
def frontend_nout : ℕ := 24

/-- Shape of the `frontend3D` pipeline from `Lipreading.__init__`:
    Conv3d(1, 24, kernel (5,7,7), stride (1,2,2), padding (2,3,3)) →
    BatchNorm3d → activation → MaxPool3d(kernel (1,3,3), stride (1,2,2),
    padding (0,1,1)). -/
def frontend3DShape (s : TensorShape5) : TensorShape5 :=
  maxPool3dOutShape 1 3 3 1 2 2 0 1 1
    (reluOutShape (batchNorm3dOutShape
      (conv3dOutShape frontend_nout 5 7 7 1 2 2 2 3 3 s)))

/-- The `tcn_options` dictionary built by `build_lipreadingnet`. -/
structure TCNOptions where
  num_layers : ℕ
  kernel_size : List ℕ
  dropout : ℚ
  dwpw : Bool
  width_mult : ℕ
deriving DecidableEq

/-- Which temporal-backbone class `Lipreading.__init__` selects. -/
inductive BackboneKind where
  | single
  | multi
deriving DecidableEq

/-- The architecture derived by `Lipreading.__init__` (the learned
    submodules themselves are opaque; this records the configuration-level
    structure the constructor computes). -/
structure LipreadingArch where
  extract_feats : Bool
  backbone_type : String
  frontend_channels : ℕ
  backend_out : ℕ
  tcn_kind : BackboneKind
  num_channels : List ℕ
deriving DecidableEq

/-- The accepted encoder width multipliers, from the assertion in
    `Lipreading.__init__`. -/
def validWidthMults : List ℚ := [1/2, 1, 3/2, 2]

/-- `Lipreading.__init__` at configuration level: the width-multiplier
    assertion runs first; only when it passes is the network assembled
    (`backend_out`, backbone-class selection by kernel-size count, and the
    replicated TCN channel list, as computed in the source). -/
def Lipreading_init (hidden_dim num_classes : ℕ) (backbone_type relu_type : String)
    (tcn_options : TCNOptions) (width_mult : ℚ) (extract_feats : Bool) :
    Except String LipreadingArch :=
  if width_mult ∈ validWidthMults then
    Except.ok
      { extract_feats := extract_feats
        backbone_type := backbone_type
        frontend_channels := frontend_nout
        backend_out := if width_mult ≠ 2 then 1024 else 2048
        tcn_kind := if tcn_options.kernel_size.length = 1 then BackboneKind.single
                    else BackboneKind.multi
        num_channels := List.replicate tcn_options.num_layers
          (hidden_dim * tcn_options.kernel_size.length * tcn_options.width_mult) }
  else
    Except.error "Width multiplier not correct"

/-- The structured record read from the configuration file.  Each field is
    `Option`al: `none` models a key absent from the JSON (Python `KeyError`
    on access). -/
structure RawConfig where
  tcn_num_layers : Option ℕ
  tcn_kernel_size : Option (List ℕ)
  tcn_dropout : Option ℚ
  tcn_dwpw : Option Bool
  tcn_width_mult : Option ℕ
  backbone_type : Option String
  relu_type : Option String
  width_mult : Option ℚ

/-- `build_lipreadingnet(config_path, weights, extract_feats)` from the
    source.  A `config` of `none` models a `config_path` that does not
    resolve to a readable record (the source then reaches the `Lipreading`
    call with `tcn_options` unbound); a missing field models a `KeyError`
    while building `tcn_options` or the keyword arguments.  Either way the
    call fails before a network is returned. -/
def build_lipreadingnet (config : Option RawConfig) (weights : String)
    (extract_feats : Bool) : Except String LipreadingArch :=
  match config with
  | none => Except.error "configuration file not loaded"
  | some c =>
    match c.tcn_num_layers, c.tcn_kernel_size, c.tcn_dropout, c.tcn_dwpw,
        c.tcn_width_mult, c.backbone_type, c.relu_type, c.width_mult with
    | some nl, some ks, some dr, some dw, some wm, some bt, some rt, some w =>
        Lipreading_init 256 500 bt rt ⟨nl, ks, dr, dw, wm⟩ w extract_feats
    | _, _, _, _, _, _, _, _ => Except.error "missing configuration field"

/-- A concrete `TCN` instance whose cascade is the identity transform and
    whose head is an empty linear layer, used to evaluate the forward paths
    on explicit inputs. -/
def idTCN : TCNmod := ⟨fun z => z, ⟨[], []⟩⟩

/-- A concrete `MultiscaleMultibranchTCN` instance whose branch composite is
    the identity transform, used to evaluate the forward paths on explicit
    inputs. -/
def idMSTCN : MSTCNmod := ⟨fun z => z, ⟨[], []⟩⟩

/-! ### List helper lemmas -/

theorem getElem?_eq_some_getD {α : Type} (l : List α) (n : ℕ) (d : α) (h : n < l.length) :
    l[n]? = some (l.getD n d) := by
  rw [List.getD_eq_getElem?_getD, List.getElem?_eq_getElem h]
  rfl

theorem getD_map_range {β : Type} (f : ℕ → β) {n j : ℕ} (d : β) (h : j < n) :
    ((List.range n).map f).getD j d = f j := by
  rw [List.getD_eq_getElem?_getD, List.getElem?_map, List.getElem?_range h]
  rfl

theorem range_map_getD {β : Type} : ∀ (l : List β) (d : β),
    (List.range l.length).map (fun i => l.getD i d) = l
  | [], _ => rfl
  | a :: l, d => by
    rw [List.length_cons, List.range_succ_eq_map, List.map_cons, List.map_map]
    exact congrArg (a :: ·) (range_map_getD l d)

theorem take_sum_eq : ∀ (L : ℕ) (row : Ten1), L ≤ row.length →
    (row.take L).sum = ∑ t ∈ Finset.range L, row.getD t 0
  | 0, row, _ => by simp
  | L + 1, [], h => by simp at h
  | L + 1, a :: row, h => by
    have h2 : L ≤ row.length := by
      simp only [List.length_cons] at h
      omega
    rw [List.take_succ_cons, List.sum_cons, take_sum_eq L row h2,
      Finset.sum_range_succ']
    simp only [List.getD_cons_succ, List.getD_cons_zero]
    ring

theorem length_take_eq {α : Type} (l : List α) (L : ℕ) (h : L ≤ l.length) :
    (l.take L).length = L := by
  rw [List.length_take]
  exact min_eq_left h

theorem torchMean_take (row : Ten1) (L : ℕ) (h : L ≤ row.length) :
    torchMean (row.take L) = (∑ t ∈ Finset.range L, row.getD t 0) / (L : ℚ) := by
  unfold torchMean
  rw [take_sum_eq L row h, length_take_eq row L h]

/-! ### Aggregator characterization -/

theorem averageBatchAux_nil (x : Ten3) (idx : ℕ) : averageBatchAux x idx [] = some [] := rfl

theorem averageBatchAux_cons (x : Ten3) (idx L : ℕ) (rest : List ℕ) :
    averageBatchAux x idx (L :: rest) =
      match x[idx]? with
      | none => none
      | some xi =>
          (averageBatchAux x (idx + 1) rest).map
            (fun r => (xi.map (fun row => torchMean (row.take L))) :: r) := rfl

theorem averageBatchAux_spec : ∀ (lengths : List ℕ) (x : Ten3) (idx : ℕ),
    idx + lengths.length ≤ x.length →
    ∃ r, averageBatchAux x idx lengths = some r ∧ r.length = lengths.length ∧
      ∀ j, j < lengths.length →
        r[j]? = some ((x.getD (idx + j) []).map
          (fun row => torchMean (row.take (lengths.getD j 0))))
  | [], x, idx, _ => ⟨[], rfl, rfl, fun j hj => absurd hj (Nat.not_lt_zero j)⟩
  | L :: rest, x, idx, h => by
    have hidx : idx < x.length := by
      simp only [List.length_cons] at h
      omega
    have hrest : (idx + 1) + rest.length ≤ x.length := by
      simp only [List.length_cons] at h
      omega
    obtain ⟨r0, hr0, hlen0, hget0⟩ := averageBatchAux_spec rest x (idx + 1) hrest
    have hx : x[idx]? = some (x.getD idx []) := getElem?_eq_some_getD x idx [] hidx
    refine ⟨(x.getD idx []).map (fun row => torchMean (row.take L)) :: r0, ?_, ?_, ?_⟩
    · rw [averageBatchAux_cons, hx]
      rw [hr0]
      rfl
    · simp [hlen0]
    · intro j hj
      cases j with
      | zero => simp
      | succ j2 =>
        have hj2 : j2 < rest.length := by
          simp only [List.length_cons] at hj
          omega
        have := hget0 j2 hj2
        rw [show idx + (j2 + 1) = idx + 1 + j2 by omega]
        simpa [List.getD_cons_succ] using this

theorem averageBatchAux_isSome : ∀ (lengths : List ℕ) (x : Ten3) (idx : ℕ),
    (averageBatchAux x idx lengths).isSome = true ↔
      (lengths = [] ∨ idx + lengths.length ≤ x.length)
  | [], x, idx => by simp [averageBatchAux_nil]
  | L :: rest, x, idx => by
    constructor
    · intro hs
      right
      cases hg : x[idx]? with
      | none =>
        rw [show averageBatchAux x idx (L :: rest) = none by
          rw [averageBatchAux_cons, hg]] at hs
        simp at hs
      | some xi =>
        have hidx : idx < x.length := by
          by_contra hc
          push_neg at hc
          rw [List.getElem?_eq_none hc] at hg
          cases hg
        have hs2 : (averageBatchAux x (idx + 1) rest).isSome = true := by
          rw [averageBatchAux_cons, hg] at hs
          simpa using hs
        rcases (averageBatchAux_isSome rest x (idx + 1)).mp hs2 with h0 | h1
        · subst h0
          simp only [List.length_cons, List.length_nil]
          omega
        · simp only [List.length_cons]
          omega
    · rintro (h0 | h1)
      · cases h0
      · have hidx : idx < x.length := by
          simp only [List.length_cons] at h1
          omega
        have hg : x[idx]? = some (x.getD idx []) := getElem?_eq_some_getD x idx [] hidx
        have hr : (averageBatchAux x (idx + 1) rest).isSome = true := by
          apply (averageBatchAux_isSome rest x (idx + 1)).mpr
          right
          simp only [List.length_cons] at h1
          omega
        rw [averageBatchAux_cons, hg]
        simpa using hr

theorem average_batch_isSome_iff (x : Ten3) (lengths : List ℕ) (B : ℕ) :
    (average_batch x lengths B).isSome = true ↔ lengths.length ≤ x.length := by
  unfold average_batch
  rw [averageBatchAux_isSome]
  constructor
  · rintro (h0 | h1)
    · simp [h0]
    · omega
  · intro h
    right
    omega

theorem average_batch_char (x : Ten3) (lengths : List ℕ) (B : ℕ)
    (h : lengths.length ≤ x.length) :
    ∃ r, average_batch x lengths B = some r ∧ r.length = lengths.length ∧
      ∀ j, j < lengths.length →
        r[j]? = some ((x.getD j []).map
          (fun row => torchMean (row.take (lengths.getD j 0)))) := by
  have := averageBatchAux_spec lengths x 0 (by omega)
  simpa using this

/-! ### Transpose and reshape lemmas -/

theorem transposeG_def {α : Type} (d : α) (m : List (List α)) :
    transposeG d m = (List.range (m.headD []).length).map (fun j =>
      (List.range m.length).map (fun i => (m.getD i []).getD j d)) := rfl

theorem transposeG_length {α : Type} (d : α) (m : List (List α)) :
    (transposeG d m).length = (m.headD []).length := by
  simp [transposeG]

theorem headD_length_of_shapeMat {α : Type} {m : List (List α)} {R C : ℕ}
    (h : shapeMat m R C) (hR : 0 < R) : (m.headD []).length = C := by
  cases m with
  | nil =>
    exfalso
    have h1 := h.1
    simp only [List.length_nil] at h1
    omega
  | cons a l => exact h.2 a (by simp)

theorem getD_mem {α : Type} {l : List α} {n : ℕ} (d : α) (h : n < l.length) :
    l.getD n d ∈ l := by
  rw [List.getD_eq_getElem l d h]
  exact List.getElem_mem h

theorem shapeMat_transposeG {α : Type} {m : List (List α)} {R C : ℕ} (d : α)
    (h : shapeMat m R C) (hR : 0 < R) : shapeMat (transposeG d m) C R := by
  constructor
  · rw [transposeG_length, headD_length_of_shapeMat h hR]
  · intro r hr
    simp only [transposeG, List.mem_map] at hr
    obtain ⟨j, hj, rfl⟩ := hr
    simp [h.1]

theorem transposeG_entry {α : Type} {m : List (List α)} {R C : ℕ} (d : α)
    (h : shapeMat m R C) {i j : ℕ} (hi : i < R) (hj : j < C) :
    ((transposeG d m).getD j []).getD i d = (m.getD i []).getD j d := by
  have hR : 0 < R := by omega
  have hwidth : (m.headD []).length = C := headD_length_of_shapeMat h hR
  have e1 : (transposeG d m).getD j [] =
      (List.range m.length).map (fun i2 => (m.getD i2 []).getD j d) := by
    rw [transposeG_def]
    exact getD_map_range _ [] (by rw [hwidth]; exact hj)
  rw [e1]
  exact getD_map_range _ d (by rw [h.1]; exact hi)

theorem transposeG_involution {α : Type} {m : List (List α)} {R C : ℕ} (d : α)
    (h : shapeMat m R C) (hR : 0 < R) (hC : 0 < C) :
    transposeG d (transposeG d m) = m := by
  have h2 : shapeMat (transposeG d m) C R := shapeMat_transposeG d h hR
  have hw2 : ((transposeG d m).headD []).length = R := headD_length_of_shapeMat h2 hC
  rw [transposeG_def d (transposeG d m), hw2, h2.1]
  have step : ∀ j ∈ List.range R,
      (List.range C).map (fun i => ((transposeG d m).getD i []).getD j d) = m.getD j [] := by
    intro j hj
    rw [List.mem_range] at hj
    have hjm : j < m.length := by rw [h.1]; exact hj
    have hrow : (m.getD j []).length = C := h.2 (m.getD j []) (getD_mem [] hjm)
    have inner : ∀ i ∈ List.range C,
        ((transposeG d m).getD i []).getD j d = (m.getD j []).getD i d := by
      intro i hi
      rw [List.mem_range] at hi
      exact transposeG_entry d h hj hi
    rw [List.map_congr_left inner, ← hrow]
    exact range_map_getD (m.getD j []) d
  rw [List.map_congr_left step, ← h.1]
  exact range_map_getD m []

theorem unsqueezePenult_shape {x : Ten3} {B C T : ℕ} (h : shape3 x B C T) :
    shape4 (unsqueezePenult x) B C 1 T := by
  constructor
  · simp [unsqueezePenult, h.1]
  · intro c hc
    simp only [unsqueezePenult, List.mem_map] at hc
    obtain ⟨mm, hmm, rfl⟩ := hc
    obtain ⟨hlen, hrows⟩ := h.2 mm hmm
    refine ⟨by simp [hlen], ?_⟩
    intro p hp
    simp only [List.mem_map] at hp
    obtain ⟨r, hr, rfl⟩ := hp
    refine ⟨by simp, ?_⟩
    intro r2 hr2
    simp only [List.mem_singleton] at hr2
    rw [hr2]
    exact hrows r hr

theorem unsqueezePenult_entry (x : Ten3) (b i t : ℕ) :
    ((((unsqueezePenult x).getD b []).getD i []).getD 0 []).getD t 0 =
      ((x.getD b []).getD i []).getD t 0 := by
  unfold unsqueezePenult
  rw [List.getD_eq_getElem?_getD (x.map _) b, List.getElem?_map,
    List.getD_eq_getElem?_getD x b]
  cases x[b]? with
  | none => simp
  | some xb =>
    simp only [Option.map_some', Option.getD_some]
    rw [List.getD_eq_getElem?_getD (xb.map _) i, List.getElem?_map,
      List.getD_eq_getElem?_getD xb i]
    cases xb[i]? with
    | none => simp
    | some r => simp

theorem unflatten_flatten {α : Type} : ∀ (ll : List (List α)) (T : ℕ),
    (∀ l ∈ ll, l.length = T) → unflattenBT ll.length T ll.flatten = ll
  | [], T, _ => by simp [unflattenBT]
  | l :: rest, T, h => by
    have hl : l.length = T := h l (by simp)
    have hrest : ∀ l2 ∈ rest, l2.length = T := fun l2 hl2 => h l2 (by simp [hl2])
    have ih := unflatten_flatten rest T hrest
    unfold unflattenBT at ih ⊢
    rw [List.length_cons, List.range_succ_eq_map, List.map_cons, List.map_map]
    congr 1
    · simp only [Nat.zero_mul, List.drop_zero, List.flatten_cons]
      rw [← hl]
      exact List.take_left l rest.flatten
    · have step : ∀ b ∈ List.range rest.length,
          ((l :: rest).flatten.drop (Nat.succ b * T)).take T
            = (rest.flatten.drop (b * T)).take T := by
        intro b hb
        rw [List.flatten_cons, Nat.succ_mul, Nat.add_comm (b * T) T, ← List.drop_drop,
          ← hl, List.drop_left]
      exact (List.map_congr_left step).trans ih

theorem mem_of_getElem?_eq_some {α : Type} {l : List α} {n : ℕ} {a : α}
    (h : l[n]? = some a) : a ∈ l :=
  List.mem_iff_getElem?.mpr ⟨n, h⟩

theorem lt_length_of_getElem?_eq_some {α : Type} {l : List α} {n : ℕ} {a : α}
    (h : l[n]? = some a) : n < l.length := by
  by_contra hc
  push_neg at hc
  rw [List.getElem?_eq_none hc] at h
  cases h

theorem getD_of_getElem?_eq_some {α : Type} {l : List α} {n : ℕ} {a : α} (d : α)
    (h : l[n]? = some a) : l.getD n d = a := by
  rw [List.getD_eq_getElem?_getD, h]
  rfl

theorem transpose12_shape {x : Ten3} {B T D : ℕ} (h : shape3 x B T D) (hT : 0 < T) :
    shape3 (transpose12 x) B D T := by
  constructor
  · simp [transpose12, h.1]
  · intro mm hmm
    simp only [transpose12, List.mem_map] at hmm
    obtain ⟨xb, hxb, rfl⟩ := hmm
    exact shapeMat_transposeG 0 (h.2 xb hxb) hT

theorem transpose12_entry {x : Ten3} {B T D : ℕ} (h : shape3 x B T D)
    {b t d2 : ℕ} (hb : b < B) (ht : t < T) (hd : d2 < D) :
    (((transpose12 x).getD b []).getD d2 []).getD t 0 =
      ((x.getD b []).getD t []).getD d2 0 := by
  have hbx : b < x.length := by rw [h.1]; exact hb
  have e1 : (transpose12 x).getD b [] = transposeG 0 (x.getD b []) := by
    unfold transpose12
    rw [List.getD_eq_getElem?_getD (x.map _) b, List.getElem?_map,
      List.getD_eq_getElem?_getD x b, List.getElem?_eq_getElem hbx]
    rfl
  rw [e1]
  exact transposeG_entry 0 (h.2 (x.getD b []) (getD_mem [] hbx)) ht hd

theorem average_batch_rows_shape {xt : Ten3} {B C T : ℕ} (h : shape3 xt B C T)
    {lengths : List ℕ} {Bc : ℕ} {v : Ten2}
    (hv : average_batch xt lengths Bc = some v) : ∀ vi ∈ v, vi.length = C := by
  intro vi hvi
  obtain ⟨j, hj⟩ := List.mem_iff_getElem?.mp hvi
  have hle : lengths.length ≤ xt.length :=
    (average_batch_isSome_iff xt lengths Bc).mp (by rw [hv]; rfl)
  obtain ⟨r, hr, hrl, hget⟩ := average_batch_char xt lengths Bc hle
  have her : r = v := by
    have := hr.symm.trans hv
    injection this
  subst her
  have hjr : j < r.length := lt_length_of_getElem?_eq_some hj
  have hjl : j < lengths.length := by omega
  have hf := hget j hjl
  rw [hj] at hf
  injection hf with hf
  have hjx : j < xt.length := by omega
  have hxi : (xt.getD j []).length = C := (h.2 (xt.getD j []) (getD_mem [] hjx)).1
  rw [hf, List.length_map, hxi]

theorem map_mean_take_congr {L : ℕ} {xi yi : Ten2}
    (hf : List.Forall₂ (fun a b => a.take L = b.take L) xi yi) :
    xi.map (fun row => torchMean (row.take L)) =
      yi.map (fun row => torchMean (row.take L)) := by
  induction hf with
  | nil => rfl
  | cons h1 h2 ih =>
    simp only [List.map_cons]
    rw [show torchMean _ = _ from congrArg torchMean h1, ih]

theorem rampRow_length (T : ℕ) : (rampRow T).length = T := by
  simp [rampRow]

theorem rampRow_getD {T t : ℕ} (h : t < T) : (rampRow T).getD t 0 = (t : ℚ) := by
  unfold rampRow
  exact getD_map_range _ 0 h

theorem mean_range_cast (L T : ℕ) (hL1 : 1 ≤ L) (hLT : L ≤ T) :
    torchMean ((rampRow T).take L) = ((L : ℚ) - 1) / 2 := by
  rw [torchMean_take _ L (by rw [rampRow_length]; exact hLT)]
  have hsum : (∑ t ∈ Finset.range L, (rampRow T).getD t 0)
      = ∑ t ∈ Finset.range L, (t : ℚ) := by
    apply Finset.sum_congr rfl
    intro t ht
    rw [Finset.mem_range] at ht
    exact rampRow_getD (lt_of_lt_of_le ht hLT)
  rw [hsum]
  have ecast : ((L - 1 : ℕ) : ℚ) = (L : ℚ) - 1 := by
    push_cast [hL1]
    ring
  have hg : (∑ t ∈ Finset.range L, (t : ℚ)) * 2 = (L : ℚ) * ((L : ℚ) - 1) := by
    calc (∑ t ∈ Finset.range L, (t : ℚ)) * 2
        = (((∑ i ∈ Finset.range L, i) * 2 : ℕ) : ℚ) := by push_cast; ring
      _ = ((L * (L - 1) : ℕ) : ℚ) := by rw [Finset.sum_range_id_mul_two]
      _ = (L : ℚ) * ((L : ℚ) - 1) := by rw [Nat.cast_mul, ecast]
  have hL0 : (L : ℚ) ≠ 0 := Nat.cast_ne_zero.mpr (by omega)
  rw [div_eq_div_iff hL0 (two_ne_zero)]
  linarith [hg]

/-! ### Claim theorems -/

/-- Claim C10: `_average_batch(x, lengths, B)` never uses its `B` argument —
any two values of `B` give identical results; the first dimension of the
result equals the number of entries of `lengths` (not `B`); and the call is
defined exactly when `lengths` has at most as many entries as `x` has batch
rows. -/
theorem average_batch_ignores_B :
    (∀ (x : Ten3) (lengths : List ℕ) (B1 B2 : ℕ),
      average_batch x lengths B1 = average_batch x lengths B2) ∧
    (∀ (x : Ten3) (lengths : List ℕ) (B : ℕ) (r : Ten2),
      average_batch x lengths B = some r → r.length = lengths.length) ∧
    (∀ (x : Ten3) (lengths : List ℕ) (B : ℕ),
      (average_batch x lengths B).isSome = true ↔ lengths.length ≤ x.length) := by
  refine ⟨fun x lengths B1 B2 => rfl, ?_,
    fun x lengths B => average_batch_isSome_iff x lengths B⟩
  intro x lengths B r hr
  have hle : lengths.length ≤ x.length :=
    (average_batch_isSome_iff x lengths B).mp (by rw [hr]; rfl)
  obtain ⟨r2, hr2, hrl, _⟩ := average_batch_char x lengths B hle
  have e : r2 = r := by
    have h0 := hr2.symm.trans hr
    injection h0
  rw [← e]
  exact hrl

/-- Witness for `average_batch_ignores_B` at a concrete input. -/
theorem average_batch_ignores_B_witness :
    average_batch [[[(1 : ℚ)]]] [1] 5 = average_batch [[[(1 : ℚ)]]] [1] 0 ∧
    ([[(1 : ℚ)]] : Ten2).length = ([1] : List ℕ).length := by
  constructor
  · exact average_batch_ignores_B.1 [[[(1 : ℚ)]]] [1] 5 0
  · exact average_batch_ignores_B.2.1 [[[(1 : ℚ)]]] [1] 5 [[(1 : ℚ)]]
      (by norm_num [average_batch, averageBatchAux_cons, averageBatchAux_nil, torchMean])

/-- Claim C2: `_average_batch` on a `[B, C, T]` tensor with valid lengths
returns a `[B, C]` tensor whose row `j` is the elementwise mean of `x[j]`
over the time columns `0..lengths[j]-1` only; two inputs that agree on the
valid prefix of example `j` give identical row `j` irrespective of the
padded suffix; and on the ramp input `x[j][c][t] = t` row `j` is constantly
`(lengths[j] - 1) / 2`. -/
theorem average_batch_spec :
    (∀ (B C T Bc : ℕ) (x : Ten3) (lengths : List ℕ),
      shape3 x B C T → lengths.length = B → (∀ L ∈ lengths, 1 ≤ L ∧ L ≤ T) →
      ∃ r, average_batch x lengths Bc = some r ∧ r.length = B ∧
        ∀ (j : ℕ) (xi : Ten2) (L : ℕ), x[j]? = some xi → lengths[j]? = some L →
          r[j]? = some (xi.map (fun row =>
            (∑ t ∈ Finset.range L, row.getD t 0) / (L : ℚ)))) ∧
    (∀ (Bc Bd : ℕ) (x y : Ten3) (lengths : List ℕ) (j L : ℕ) (xi yi r s : Ten2),
      lengths[j]? = some L → x[j]? = some xi → y[j]? = some yi →
      List.Forall₂ (fun a b => a.take L = b.take L) xi yi →
      average_batch x lengths Bc = some r → average_batch y lengths Bd = some s →
      r[j]? = s[j]?) ∧
    (∀ (B C T Bc : ℕ) (x : Ten3) (lengths : List ℕ),
      shape3 x B C T → lengths.length = B →
      (∀ mm ∈ x, ∀ row ∈ mm, row = rampRow T) →
      (∀ L ∈ lengths, 1 ≤ L ∧ L ≤ T) →
      ∃ r, average_batch x lengths Bc = some r ∧
        ∀ (j L : ℕ) (ri : Ten1), lengths[j]? = some L → r[j]? = some ri →
          ∀ c ∈ ri, c = ((L : ℚ) - 1) / 2) := by
  refine ⟨?_, ?_, ?_⟩
  · intro B C T Bc x lengths hx hlen hvalid
    have hle : lengths.length ≤ x.length := by rw [hlen, hx.1]
    obtain ⟨r, hr, hrl, hget⟩ := average_batch_char x lengths Bc hle
    refine ⟨r, hr, by rw [hrl, hlen], ?_⟩
    intro j xi L hxj hlj
    have hjlen : j < lengths.length := lt_length_of_getElem?_eq_some hlj
    have hgj := hget j hjlen
    rw [getD_of_getElem?_eq_some [] hxj, getD_of_getElem?_eq_some 0 hlj] at hgj
    rw [hgj]
    congr 1
    apply List.map_congr_left
    intro row hrow
    have hrT : row.length = T := (hx.2 xi (mem_of_getElem?_eq_some hxj)).2 row hrow
    have hLT : L ≤ T := (hvalid L (mem_of_getElem?_eq_some hlj)).2
    exact torchMean_take row L (by rw [hrT]; exact hLT)
  · intro Bc Bd x y lengths j L xi yi r s hlj hxj hyj hf hr hs
    have hlex : lengths.length ≤ x.length :=
      (average_batch_isSome_iff x lengths Bc).mp (by rw [hr]; rfl)
    have hley : lengths.length ≤ y.length :=
      (average_batch_isSome_iff y lengths Bd).mp (by rw [hs]; rfl)
    obtain ⟨r2, hr2, hrl2, hgetr⟩ := average_batch_char x lengths Bc hlex
    obtain ⟨s2, hs2, hsl2, hgets⟩ := average_batch_char y lengths Bd hley
    have er : r2 = r := by
      have h0 := hr2.symm.trans hr
      injection h0
    have es : s2 = s := by
      have h0 := hs2.symm.trans hs
      injection h0
    rw [← er, ← es]
    have hjlen : j < lengths.length := lt_length_of_getElem?_eq_some hlj
    rw [hgetr j hjlen, hgets j hjlen]
    rw [getD_of_getElem?_eq_some [] hxj, getD_of_getElem?_eq_some [] hyj,
      getD_of_getElem?_eq_some 0 hlj]
    exact congrArg some (map_mean_take_congr hf)
  · intro B C T Bc x lengths hx hlen hramp hvalid
    have hle : lengths.length ≤ x.length := by rw [hlen, hx.1]
    obtain ⟨r, hr, hrl, hget⟩ := average_batch_char x lengths Bc hle
    refine ⟨r, hr, ?_⟩
    intro j L ri hlj hrj
    have hjlen : j < lengths.length := lt_length_of_getElem?_eq_some hlj
    have hgj := hget j hjlen
    rw [hrj, getD_of_getElem?_eq_some 0 hlj] at hgj
    injection hgj with hgj
    intro c hc
    rw [hgj] at hc
    simp only [List.mem_map] at hc
    obtain ⟨row, hrow, rfl⟩ := hc
    have hjx : j < x.length := by omega
    have hrr : row = rampRow T := hramp (x.getD j []) (getD_mem [] hjx) row hrow
    rw [hrr]
    exact mean_range_cast L T (hvalid L (mem_of_getElem?_eq_some hlj)).1
      (hvalid L (mem_of_getElem?_eq_some hlj)).2

/-- Witness for `average_batch_spec` at a concrete ramp input. -/
theorem average_batch_spec_witness :
    ∃ r, average_batch [[[0, 1, 2]]] [2] 9 = some r ∧
      ∀ (j L : ℕ) (ri : Ten1), ([2] : List ℕ)[j]? = some L → r[j]? = some ri →
        ∀ c ∈ ri, c = ((L : ℚ) - 1) / 2 :=
  average_batch_spec.2.2 1 1 3 9 [[[0, 1, 2]]] [2] (by decide) (by decide)
    (by decide) (by decide)

/-- Claim C3: in feature-extraction mode `TCN.forward` runs the temporal
cascade on the transposed input and returns the pair of the cascade output
with a singleton axis inserted (shape `[B, channelsOut, 1, T]`) and the
aggregator applied to the cascade output with the supplied lengths (shape
`[B, channelsOut]`). -/
theorem TCN_forward_extract_spec (m : TCNmod) (x : Ten3) (lengths : List ℕ)
    (Bc B C T : ℕ) (htr : shape3 (m.tcn_trunk (transpose12 x)) B C T)
    (hlen : lengths.length = B) :
    ∃ v, TCN_forward m x lengths Bc true =
        some (LROutput.pair (unsqueezePenult (m.tcn_trunk (transpose12 x))) v) ∧
      average_batch (m.tcn_trunk (transpose12 x)) lengths Bc = some v ∧
      shape4 (unsqueezePenult (m.tcn_trunk (transpose12 x))) B C 1 T ∧
      v.length = B ∧ (∀ vi ∈ v, vi.length = C) := by
  have hle : lengths.length ≤ (m.tcn_trunk (transpose12 x)).length := by
    rw [hlen, htr.1]
  obtain ⟨v, hv, hvl, _⟩ := average_batch_char (m.tcn_trunk (transpose12 x)) lengths Bc hle
  refine ⟨v, ?_, hv, unsqueezePenult_shape htr, by rw [hvl, hlen],
    average_batch_rows_shape htr hv⟩
  simp [TCN_forward, hv]

/-- Witness for `TCN_forward_extract_spec` with the identity cascade. -/
theorem TCN_forward_extract_spec_witness :
    ∃ v, TCN_forward idTCN [[[1, 2]]] [1] 7 true =
        some (LROutput.pair (unsqueezePenult (idTCN.tcn_trunk (transpose12 [[[1, 2]]]))) v) ∧
      average_batch (idTCN.tcn_trunk (transpose12 [[[1, 2]]])) [1] 7 = some v ∧
      shape4 (unsqueezePenult (idTCN.tcn_trunk (transpose12 [[[1, 2]]]))) 1 2 1 1 ∧
      v.length = 1 ∧ (∀ vi ∈ v, vi.length = 2) :=
  TCN_forward_extract_spec idTCN [[[1, 2]]] [1] 7 1 2 1 (by decide) (by decide)

/-- Claim C1 (counterexample): in raw mode `TCN.forward` does not return the
input reshaped to `[B, trunkDim, 1, T]` — at `x = [[[0], [1]]]` (shape
`[1, 2, 1]`) the result differs from the transposed-and-reshaped tensor the
claim describes, because the raw branch skips the transpose. -/
theorem TCN_forward_raw_counterexample :
    TCN_forward idTCN [[[0], [1]]] [] 1 false ≠
      some (LROutput.single (unsqueezePenult (transpose12 [[[0], [1]]]))) := by
  decide

/-- Claim C1 (amended): in raw mode `TCN.forward` skips the cascade and the
aggregation and returns the input with a singleton axis inserted in the
penultimate position — shape `[B, T, 1, trunkDim]`, not `[B, trunkDim, 1, T]`
— with every element value unchanged
(`result[b][t][0][d] = input[b][t][d]`). -/
theorem TCN_forward_raw_spec (m : TCNmod) (x : Ten3) (lengths : List ℕ)
    (Bc B T D : ℕ) (hx : shape3 x B T D) :
    TCN_forward m x lengths Bc false = some (LROutput.single (unsqueezePenult x)) ∧
    shape4 (unsqueezePenult x) B T 1 D ∧
    ∀ b t d2 : ℕ,
      ((((unsqueezePenult x).getD b []).getD t []).getD 0 []).getD d2 0 =
        ((x.getD b []).getD t []).getD d2 0 :=
  ⟨rfl, unsqueezePenult_shape hx, fun b t d2 => unsqueezePenult_entry x b t d2⟩

/-- Witness for `TCN_forward_raw_spec` at a concrete input. -/
theorem TCN_forward_raw_spec_witness :
    TCN_forward idTCN [[[3, 4]]] [] 5 false =
        some (LROutput.single (unsqueezePenult [[[3, 4]]])) ∧
    shape4 (unsqueezePenult [[[3, 4]]]) 1 1 1 2 ∧
    ∀ b t d2 : ℕ,
      ((((unsqueezePenult [[[3, 4]]]).getD b []).getD t []).getD 0 []).getD d2 0 =
        ((([[[3, 4]]] : Ten3).getD b []).getD t []).getD d2 0 :=
  TCN_forward_raw_spec idTCN [[[3, 4]]] [] 5 1 1 2 (by decide)

/-- Claim C4 (counterexample): in extraction mode
`MultiscaleMultibranchTCN.forward` returns only the per-timestep feature
tensor — a `single` value, not the claimed (features, aggregated) pair —
because the consensus call is commented out in the source.  Evaluated with
the identity branch composite at `x = [[[0], [1]]]`, `lengths = [2]`. -/
theorem MS_forward_extract_counterexample :
    MultiscaleMultibranchTCN_forward idMSTCN [[[0], [1]]] [2] 1 true =
      some (LROutput.single [[[[0, 1]]]]) ∧
    isPairOut (MultiscaleMultibranchTCN_forward idMSTCN [[[0], [1]]] [2] 1 true) = false := by
  decide

/-- Claim C4 (amended): in extraction mode the multi-scale backbone returns
only the per-timestep feature tensor `[B, channelsOut, 1, T]` (the branch
output with a singleton axis; no aggregated vector); in raw mode it returns
the input transposed and reshaped to `[B, trunkDim, 1, T]` with content
unchanged (`result[b][d][0][t] = input[b][t][d]`). -/
theorem MultiscaleMultibranchTCN_forward_spec (m : MSTCNmod) (x : Ten3)
    (lengths : List ℕ) (Bc B T D Bo C To : ℕ)
    (hx : shape3 x B T D) (hT : 0 < T)
    (hbr : shape3 (m.mb_ms_tcn (transpose12 x)) Bo C To) :
    (MultiscaleMultibranchTCN_forward m x lengths Bc true =
        some (LROutput.single (unsqueezePenult (m.mb_ms_tcn (transpose12 x)))) ∧
      shape4 (unsqueezePenult (m.mb_ms_tcn (transpose12 x))) Bo C 1 To) ∧
    (MultiscaleMultibranchTCN_forward m x lengths Bc false =
        some (LROutput.single (unsqueezePenult (transpose12 x))) ∧
      shape4 (unsqueezePenult (transpose12 x)) B D 1 T ∧
      ∀ b ∈ List.range B, ∀ d2 ∈ List.range D, ∀ t ∈ List.range T,
        ((((unsqueezePenult (transpose12 x)).getD b []).getD d2 []).getD 0 []).getD t 0 =
          ((x.getD b []).getD t []).getD d2 0) := by
  refine ⟨⟨rfl, unsqueezePenult_shape hbr⟩,
    rfl, unsqueezePenult_shape (transpose12_shape hx hT), ?_⟩
  intro b hb d2 hd t ht
  rw [List.mem_range] at hb hd ht
  rw [unsqueezePenult_entry]
  exact transpose12_entry hx hb ht hd

/-- Witness for `MultiscaleMultibranchTCN_forward_spec` with the identity
branch composite. -/
theorem MultiscaleMultibranchTCN_forward_spec_witness :
    (MultiscaleMultibranchTCN_forward idMSTCN [[[1, 2]]] [1] 3 true =
        some (LROutput.single (unsqueezePenult (idMSTCN.mb_ms_tcn (transpose12 [[[1, 2]]])))) ∧
      shape4 (unsqueezePenult (idMSTCN.mb_ms_tcn (transpose12 [[[1, 2]]]))) 1 2 1 1) ∧
    (MultiscaleMultibranchTCN_forward idMSTCN [[[1, 2]]] [1] 3 false =
        some (LROutput.single (unsqueezePenult (transpose12 [[[1, 2]]]))) ∧
      shape4 (unsqueezePenult (transpose12 [[[1, 2]]])) 1 2 1 1 ∧
      ∀ b ∈ List.range 1, ∀ d2 ∈ List.range 2, ∀ t ∈ List.range 1,
        ((((unsqueezePenult (transpose12 [[[1, 2]]])).getD b []).getD d2 []).getD 0 []).getD t 0 =
          ((([[[1, 2]]] : Ten3).getD b []).getD t []).getD d2 0) :=
  MultiscaleMultibranchTCN_forward_spec idMSTCN [[[1, 2]]] [1] 3 1 1 2 1 2 1
    (by decide) (by decide) (by decide)

/-- Claim C5: `Lipreading.forward` is independent of the parameters of the
final linear classification layer `tcn_output`: replacing that layer by any
two parameter assignments in otherwise identical networks yields identical
forward results (the head is constructed but never invoked on the traced
forward path). -/
theorem Lipreading_forward_head_independent (m : LipreadingMod) (h1 h2 : Linear)
    (x : Ten5) (lengths : LengthsArg) :
    Lipreading_forward (setHead m h1) x lengths =
      Lipreading_forward (setHead m h2) x lengths := by
  rcases m with ⟨ef, bt, fe, tr, so, tcn⟩
  cases tcn <;> rfl

/-- Claim C6: the 3D front-end (Conv3d with kernel (5,7,7), stride (1,2,2),
padding (2,3,3), then BatchNorm3d, activation, and MaxPool3d with kernel
(1,3,3), stride (1,2,2), padding (0,1,1)) maps a `[B, 1, T, H, W]` clip with
`T ≥ 1` to an output whose temporal length is exactly `T`, with 24
channels. -/
theorem frontend3D_time_preserved (B T H W : ℕ) (hT : 1 ≤ T) :
    (frontend3DShape ⟨B, 1, T, H, W⟩).time = T ∧
    (frontend3DShape ⟨B, 1, T, H, W⟩).channels = 24 := by
  refine ⟨?_, rfl⟩
  dsimp only [frontend3DShape, maxPool3dOutShape, reluOutShape, batchNorm3dOutShape,
    conv3dOutShape, convOutLen]
  omega

/-- Witness for `frontend3D_time_preserved` at `T = 16`. -/
theorem frontend3D_time_preserved_witness :
    1 ≤ 16 ∧ ((frontend3DShape ⟨2, 1, 16, 96, 96⟩).time = 16 ∧
      (frontend3DShape ⟨2, 1, 16, 96, 96⟩).channels = 24) :=
  ⟨by decide, frontend3D_time_preserved 2 16 96 96 (by decide)⟩

/-- Claim C7: flattening a `[B, C, T, H, W]` tensor with
`threeD_to_2D_tensor` (channel/time transpose followed by a reshape to
`[B*T, C, H, W]`) merges the batch and time axes exactly (the flattened
batch has `B*T` frames), and un-flattening back to a `[B, T, ...]` layout
recovers the original batch and time extents and, after undoing the
transpose, the original tensor with its element order intact. -/
theorem threeD_to_2D_tensor_roundtrip (B C T : ℕ) (x : Ten5) (hC : 0 < C)
    (hT : 0 < T) (hB : x.length = B) (hx : ∀ xb ∈ x, shapeMat xb C T) :
    (threeD_to_2D_tensor x).length = B * T ∧
    (unflattenBT B T (threeD_to_2D_tensor x)).length = B ∧
    (∀ fr ∈ unflattenBT B T (threeD_to_2D_tensor x), fr.length = T) ∧
    (unflattenBT B T (threeD_to_2D_tensor x)).map
      (fun fr => transposeG ([] : Ten2) fr) = x := by
  have hmap : ∀ yb ∈ x.map (fun xb => transposeG ([] : Ten2) xb), yb.length = T := by
    intro yb hyb
    simp only [List.mem_map] at hyb
    obtain ⟨xb, hxb, rfl⟩ := hyb
    exact (shapeMat_transposeG [] (hx xb hxb) hC).1
  have hunf : unflattenBT B T (threeD_to_2D_tensor x)
      = x.map (fun xb => transposeG ([] : Ten2) xb) := by
    unfold threeD_to_2D_tensor
    have h0 := unflatten_flatten (x.map (fun xb => transposeG ([] : Ten2) xb)) T hmap
    rwa [List.length_map, hB] at h0
  refine ⟨?_, ?_, ?_, ?_⟩
  · unfold threeD_to_2D_tensor
    rw [List.length_flatten]
    have hrep : (x.map (fun xb => transposeG ([] : Ten2) xb)).map List.length
        = List.replicate B T := by
      rw [List.eq_replicate_iff]
      refine ⟨by simp [hB], ?_⟩
      intro b hb
      simp only [List.mem_map] at hb
      obtain ⟨yb, hyb, rfl⟩ := hb
      obtain ⟨xb, hxb, rfl⟩ := hyb
      exact (shapeMat_transposeG [] (hx xb hxb) hC).1
    rw [hrep, List.sum_replicate, smul_eq_mul]
  · rw [hunf, List.length_map, hB]
  · intro fr hfr
    rw [hunf] at hfr
    exact hmap fr hfr
  · rw [hunf, List.map_map]
    have step : ∀ xb ∈ x, transposeG ([] : Ten2) (transposeG ([] : Ten2) xb) = xb := by
      intro xb hxb
      exact transposeG_involution [] (hx xb hxb) hC hT
    exact (List.map_congr_left step).trans (List.map_id' x)

/-- Witness for `threeD_to_2D_tensor_roundtrip` on a one-frame clip. -/
theorem threeD_to_2D_tensor_roundtrip_witness :
    (threeD_to_2D_tensor [[[[[5]]]]]).length = 1 * 1 ∧
    (unflattenBT 1 1 (threeD_to_2D_tensor [[[[[5]]]]])).length = 1 ∧
    (∀ fr ∈ unflattenBT 1 1 (threeD_to_2D_tensor [[[[[5]]]]]), fr.length = 1) ∧
    (unflattenBT 1 1 (threeD_to_2D_tensor [[[[[5]]]]])).map
      (fun fr => transposeG ([] : Ten2) fr) = [[[[[5]]]]] :=
  threeD_to_2D_tensor_roundtrip 1 1 1 [[[[[5]]]]] (by decide) (by decide)
    (by decide) (by decide)

/-- Claim C8: `Lipreading.__init__` accepts exactly the encoder width
multipliers 0.5, 1.0, 1.5, 2.0 — the assertion fires (construction fails)
for every other value, before any network component is assembled, and for
every value in the set construction proceeds to a network. -/
theorem Lipreading_init_width_check (hidden_dim num_classes : ℕ)
    (backbone_type relu_type : String) (opts : TCNOptions) (width_mult : ℚ)
    (extract_feats : Bool) :
    (width_mult ∈ validWidthMults →
      ∃ arch, Lipreading_init hidden_dim num_classes backbone_type relu_type opts
        width_mult extract_feats = Except.ok arch) ∧
    (width_mult ∉ validWidthMults →
      Lipreading_init hidden_dim num_classes backbone_type relu_type opts
        width_mult extract_feats = Except.error "Width multiplier not correct") := by
  constructor
  · intro hmem
    unfold Lipreading_init
    rw [if_pos hmem]
    exact ⟨_, rfl⟩
  · intro hmem
    unfold Lipreading_init
    rw [if_neg hmem]

/-- Witness for `Lipreading_init_width_check`: width 1.0 constructs, width 3
is rejected. -/
theorem Lipreading_init_width_check_witness :
    (∃ arch, Lipreading_init 256 500 "shufflenet" "prelu" ⟨4, [3], 1/5, false, 1⟩ 1 false
      = Except.ok arch) ∧
    Lipreading_init 256 500 "shufflenet" "prelu" ⟨4, [3], 1/5, false, 1⟩ 3 false
      = Except.error "Width multiplier not correct" :=
  ⟨(Lipreading_init_width_check 256 500 "shufflenet" "prelu" ⟨4, [3], 1/5, false, 1⟩ 1
      false).1 (by norm_num [validWidthMults]),
   (Lipreading_init_width_check 256 500 "shufflenet" "prelu" ⟨4, [3], 1/5, false, 1⟩ 3
      false).2 (by norm_num [validWidthMults])⟩

/-- Claim C9: when the configuration path does not resolve to a readable
structured record, or a required field is absent, `build_lipreadingnet`
fails with an error and never returns a constructed network. -/
theorem build_lipreadingnet_config_errors (config : Option RawConfig)
    (weights : String) (extract_feats : Bool)
    (h : config = none ∨ ∃ c, config = some c ∧
      (c.tcn_num_layers = none ∨ c.tcn_kernel_size = none ∨ c.tcn_dropout = none ∨
       c.tcn_dwpw = none ∨ c.tcn_width_mult = none ∨ c.backbone_type = none ∨
       c.relu_type = none ∨ c.width_mult = none)) :
    ∃ e, build_lipreadingnet config weights extract_feats = Except.error e := by
  rcases h with h0 | ⟨c, hc, hf⟩
  · subst h0
    exact ⟨_, rfl⟩
  · subst hc
    rcases c with ⟨f1, f2, f3, f4, f5, f6, f7, f8⟩
    rcases f1 with _ | v1 <;> rcases f2 with _ | v2 <;> rcases f3 with _ | v3 <;>
      rcases f4 with _ | v4 <;> rcases f5 with _ | v5 <;> rcases f6 with _ | v6 <;>
      rcases f7 with _ | v7 <;> rcases f8 with _ | v8 <;>
      first
        | exact ⟨_, rfl⟩
        | (rcases hf with h | h | h | h | h | h | h | h <;> exact Option.noConfusion h)

/-- Witness for `build_lipreadingnet_config_errors`: the missing-file case. -/
theorem build_lipreadingnet_config_errors_witness :
    ∃ e, build_lipreadingnet none "" false = Except.error e :=
  build_lipreadingnet_config_errors none "" false (Or.inl rfl)
